import Mathlib

/-!
Verification development for the secret-agent core: a shallow embedding of
the navigation/location tracking state machine (`LocationTracker`), the
session state recorder (`SessionState`), the connection-level command
dispatch (`CoreServerConnection.handleRequest`) and the concurrency-bounded
session pool, together with theorems checking the repository's
specification claims against these definitions.

Sources embedded:
  - src/core/lib/LocationTracker.ts
  - src/session-state/index.ts
  - src/unnamed/part_001 (CoreServerConnection)
The `PipelineStatus` / `LocationTrigger` / `LocationStatus` enumerations,
`TabNavigations` and `GlobalPool` live outside the provided sources and are
modelled from the spec where noted.
-/

namespace SecretAgent

/-- Modelled from the spec: the six strictly ordered pipeline statuses of
`core-interfaces/Location` (not under src/): `NavigationRequested →
HttpRequested → HttpRedirected → HttpResponded → DomContentLoaded →
AllContentLoaded`.  Their numeric steps are 0..5: this is forced by the
source's `pipelineKeys[step]` indexing in
`LocationTracker.onPipelineStatusChange`, which requires each status name to
sit at the index equal to its numeric value. -/
inductive PipelineStatus
  | NavigationRequested
  | HttpRequested
  | HttpRedirected
  | HttpResponded
  | DomContentLoaded
  | AllContentLoaded
  deriving DecidableEq, Repr, Fintype

/-- Modelled from the spec: the two navigation trigger classes of
`core-interfaces/Location` (not under src/). -/
inductive LocationTrigger
  | reload
  | change
  deriving DecidableEq, Repr, Fintype

/-- `ILocationStatus`: a trigger or a pipeline status; the eight keys of
`LocationTracker.waitForCbs` in src/core/lib/LocationTracker.ts. -/
inductive ILocationStatus
  | trigger : LocationTrigger → ILocationStatus
  | pipeline : PipelineStatus → ILocationStatus
  deriving DecidableEq, Repr, Fintype

/-- Numeric pipeline step of a status (`PipelineStatus[status]` /
`LocationTracker.getStepByStatus`). -/
def stepOf : PipelineStatus → Nat
  | .NavigationRequested => 0
  | .HttpRequested => 1
  | .HttpRedirected => 2
  | .HttpResponded => 3
  | .DomContentLoaded => 4
  | .AllContentLoaded => 5

/-- `pipelineKeys[step]`: the status name at a numeric index of the
`PipelineStatus` enumeration object. -/
def statusOfStep : Nat → Option PipelineStatus
  | 0 => some .NavigationRequested
  | 1 => some .HttpRequested
  | 2 => some .HttpRedirected
  | 3 => some .HttpResponded
  | 4 => some .DomContentLoaded
  | 5 => some .AllContentLoaded
  | _ => none

theorem statusOfStep_stepOf (st : PipelineStatus) : statusOfStep (stepOf st) = some st := by
  cases st <;> rfl

theorem stepOf_of_statusOfStep {step : Nat} {st : PipelineStatus}
    (h : statusOfStep step = some st) : stepOf st = step := by
  match step with
  | 0 => simp [statusOfStep] at h; subst h; rfl
  | 1 => simp [statusOfStep] at h; subst h; rfl
  | 2 => simp [statusOfStep] at h; subst h; rfl
  | 3 => simp [statusOfStep] at h; subst h; rfl
  | 4 => simp [statusOfStep] at h; subst h; rfl
  | 5 => simp [statusOfStep] at h; subst h; rfl
  | (n + 6) => simp [statusOfStep] at h

/-- Navigation reasons distinguished by the source
(`getTriggerForNavigationReason` in src/core/lib/LocationTracker.ts). -/
inductive NavigationReason
  | goto
  | httpHeaderRefresh
  | metaTagRefresh
  | reload
  | userGesture
  | inPage
  | newTab
  deriving DecidableEq, Repr, Fintype

/-- One navigation attempt (`INavigation`): the fields the embedded claims
need.  `stateChanges` is the ordered status → timestamp mapping. -/
structure Navigation where
  navigationReason : NavigationReason
  startCommandId : Nat
  stateChanges : List (PipelineStatus × Nat)
  initiatedTime : Nat
  deriving DecidableEq, Repr

/-- Per-tab navigation history (`TabNavigations`): an ordered list of
navigation entries; the last entry is the current navigation. -/
structure NavState where
  history : List Navigation
  deriving DecidableEq, Repr

/-- `TabNavigations.top`: the last history entry. -/
def NavState.top (navs : NavState) : Option Navigation :=
  navs.history.getLast?

/-- `LocationTracker.getPipelineStatus`: the highest pipeline step recorded
in a navigation's `stateChanges` (0 when none). -/
def getPipelineStatus (page : Navigation) : Nat :=
  page.stateChanges.foldl
    (fun maxStep change => if stepOf change.1 > maxStep then stepOf change.1 else maxStep) 0

/-- `LocationTracker.currentStep`: 0 with no navigation, otherwise the top
navigation's highest recorded step. -/
def currentStep (navs : NavState) : Nat :=
  match navs.top with
  | none => 0
  | some location => getPipelineStatus location

/-- `LocationTracker.getTriggerForNavigationReason`: `newTab` maps to no
trigger; the reload family maps to `reload`; everything else to `change`. -/
def getTriggerForNavigationReason (reason : NavigationReason) : Option LocationTrigger :=
  if reason = .newTab then none
  else
    let isReload :=
      reason = .httpHeaderRefresh ∨ reason = .metaTagRefresh ∨ reason = .reload
    if isReload then some .reload else some .change

/-- The location tracker's mutable state: the default anchor command id and
the FIFO waiter lists per status (waiters are modelled by numeric ids). -/
structure LocationTracker where
  defaultWaitForLocationCommandId : Nat
  waitForCbs : ILocationStatus → List Nat

/-- `LocationTracker.runWaitForCbs`: shift-and-resolve every waiter queued
for a status (returned in FIFO order) and leave the list empty. -/
def runWaitForCbs (t : LocationTracker) (status : ILocationStatus) :
    LocationTracker × List Nat :=
  (⟨t.defaultWaitForLocationCommandId,
    fun s => if s = status then [] else t.waitForCbs s⟩,
   t.waitForCbs status)

/-- `LocationTracker.hasTriggerSinceCommand`: scan the history for an entry
whose `startCommandId` is past the anchor (inclusive or exclusive) and whose
reason maps to the requested trigger. -/
def hasTriggerSinceCommand (navs : NavState) (trigger : LocationTrigger)
    (sinceCommandId : Nat) (inclusive : Bool) : Bool :=
  navs.history.any fun history =>
    let isMatch := history.startCommandId > sinceCommandId
    let isMatch :=
      if inclusive then isMatch || history.startCommandId ≥ sinceCommandId else isMatch
    isMatch && (getTriggerForNavigationReason history.navigationReason = some trigger)

/-- Outcome of a `waitFor` call: resolved immediately, or a waiter
registered in the status's callback list. -/
inductive WaitOutcome
  | resolved
  | registered
  deriving DecidableEq, Repr

/-- `LocationTracker.waitFor` after the `READY` substitution and the
status-validity assertion (both handled by `waitFor` below), translated
with the source's truthiness checks intact: `if (LocationTrigger[status])`
holds only for triggers, and `if (PipelineStatus[status])` together with
`if (step && step <= this.currentStep)` hold only for pipeline statuses
whose numeric value is non-zero (so never for `NavigationRequested`, whose
value 0 is falsy). -/
def waitForStatus (navs : NavState) (t : LocationTracker) (status : ILocationStatus)
    (sinceCommandId : Option Nat) (inclusiveOfCommandId : Bool) (waiterId : Nat) :
    WaitOutcome × LocationTracker :=
  let triggerHit :=
    match status with
    | .trigger trig =>
        hasTriggerSinceCommand navs trig
          (sinceCommandId.getD t.defaultWaitForLocationCommandId) inclusiveOfCommandId
    | .pipeline _ => false
  if triggerHit then (.resolved, t)
  else
    let stepHit :=
      match status with
      | .trigger _ => false
      | .pipeline p =>
          let step := stepOf p
          decide (step ≠ 0) && decide (step ≤ currentStep navs)
    if stepHit then (.resolved, t)
    else
      (.registered,
       ⟨t.defaultWaitForLocationCommandId,
        fun s => if s = status then t.waitForCbs s ++ [waiterId] else t.waitForCbs s⟩)

/-- `LocationStatus[status]` as a lookup from the raw status string: the
eight valid `ILocationStatus` names. -/
def locationStatusOfString (status : String) : Option ILocationStatus :=
  if status = "reload" then some (.trigger .reload)
  else if status = "change" then some (.trigger .change)
  else if status = "NavigationRequested" then some (.pipeline .NavigationRequested)
  else if status = "HttpRequested" then some (.pipeline .HttpRequested)
  else if status = "HttpRedirected" then some (.pipeline .HttpRedirected)
  else if status = "HttpResponded" then some (.pipeline .HttpResponded)
  else if status = "DomContentLoaded" then some (.pipeline .DomContentLoaded)
  else if status = "AllContentLoaded" then some (.pipeline .AllContentLoaded)
  else none

/-- Result of the public string-level `waitFor`: resolved, registered, or
the assertion failure raised for an invalid status. -/
inductive WaitForResult
  | resolved
  | registered
  | assertionError (message : String)
  deriving DecidableEq, Repr

/-- `LocationTracker.waitFor` on the raw status string: `'READY'` resolves
immediately with no navigation and otherwise stands for
`DomContentLoaded`; any other string outside `LocationStatus` fails the
`assert` with `Invalid navigation status: <status>`. -/
def waitFor (navs : NavState) (t : LocationTracker) (status : String)
    (sinceCommandId : Option Nat) (inclusiveOfCommandId : Bool) (waiterId : Nat) :
    WaitForResult × LocationTracker :=
  if status = "READY" then
    match navs.top with
    | none => (.resolved, t)
    | some _ =>
        match waitForStatus navs t (.pipeline .DomContentLoaded)
            sinceCommandId inclusiveOfCommandId waiterId with
        | (.resolved, t') => (.resolved, t')
        | (.registered, t') => (.registered, t')
  else
    match locationStatusOfString status with
    | none => (.assertionError ("Invalid navigation status: " ++ status), t)
    | some st =>
        match waitForStatus navs t st sinceCommandId inclusiveOfCommandId waiterId with
        | (.resolved, t') => (.resolved, t')
        | (.registered, t') => (.registered, t')

/-- One iteration group of the loop in
`LocationTracker.onPipelineStatusChange`: the status announced for a step,
or `none` when the step is an intermediate `HttpRedirected` (or out of
range). -/
def wakeCond (newStep step : Nat) : Option PipelineStatus :=
  match statusOfStep step with
  | none => none
  | some status =>
      if status ≠ PipelineStatus.HttpRedirected ∨ step = newStep then some status else none

/-- The loop body of `LocationTracker.onPipelineStatusChange`: walk the
steps in ascending order, resolving the waiters of every announced status
and collecting, per announced status, the (FIFO) list of waiters woken. -/
def wakeSteps (t : LocationTracker) (steps : List Nat) (newStep : Nat) :
    LocationTracker × List (PipelineStatus × List Nat) :=
  match steps with
  | [] => (t, [])
  | step :: rest =>
      match wakeCond newStep step with
      | none => wakeSteps t rest newStep
      | some status =>
          let woken := runWaitForCbs t (.pipeline status)
          let tail := wakeSteps woken.1 rest newStep
          (tail.1, (status, woken.2) :: tail.2)

/-- `LocationTracker.onPipelineStatusChange`: compute the forward distance
from the tracker's view of the current step to the incoming status and
replay the intermediate steps, announcing each except intermediate
`HttpRedirected` steps. -/
def onPipelineStatusChange (t : LocationTracker) (lastStep : Nat)
    (newStatus : PipelineStatus) : LocationTracker × List (PipelineStatus × List Nat) :=
  let incomingStep := stepOf newStatus
  let newStep := if incomingStep > lastStep then incomingStep else lastStep
  let stepsToUpdate := newStep - lastStep
  wakeSteps t ((List.range stepsToUpdate).map (fun i => lastStep + 1 + i)) newStep

/-- `LocationTracker.onNavigation`: a `newTab` navigation triggers nothing;
any other navigation resolves the waiters of its trigger class. -/
def onNavigation (t : LocationTracker) (lifecycle : Navigation) :
    LocationTracker × List Nat :=
  if lifecycle.navigationReason = .newTab then (t, [])
  else
    match getTriggerForNavigationReason lifecycle.navigationReason with
    | none => (t, [])
    | some trigger => runWaitForCbs t (.trigger trigger)

/-- Modelled from the spec: `TabNavigations.recordLifecycleEvent` (not
under src/) applied to one update batch delivered in pipeline order.  It
emits a single `status-change` notification carrying the batch's final
status only if that is a forward step — the notification runs the
tracker's `onPipelineStatusChange` against the pre-batch pipeline position
— and records every status of the batch in the top entry's
`stateChanges`. -/
def recordLifecycleBatch (navs : NavState) (t : LocationTracker)
    (batch : List (PipelineStatus × Nat)) :
    NavState × LocationTracker × List (PipelineStatus × List Nat) :=
  match navs.history.getLast? with
  | none => (navs, t, [])
  | some top =>
      let lastStep := currentStep navs
      let notified :=
        match batch.getLast? with
        | none => (t, [])
        | some (newStatus, _) =>
            if stepOf newStatus > lastStep then onPipelineStatusChange t lastStep newStatus
            else (t, [])
      let top' : Navigation := { top with stateChanges := top.stateChanges ++ batch }
      (⟨navs.history.dropLast ++ [top']⟩, notified.1, notified.2)

/-- Command metadata as seen by `willRunCommand` (`ICommandMeta`). -/
structure CommandMeta where
  id : Nat
  name : String
  deriving DecidableEq, Repr

/-- `command.name.startsWith('waitFor')`. -/
def isWaitForName (name : String) : Bool :=
  name.startsWith ("waitFor")

/-- `last?.name.startsWith('waitFor')`: false when there is no previous
command (the JS optional-chain short-circuit). -/
def lastIsWaitFor : Option CommandMeta → Bool
  | some l => isWaitForName l.name
  | none => false

/-- The scan loop of `LocationTracker.willRunCommand`: walk the previous
commands carrying the previously seen command, updating the default anchor
on every `goto` and on every non-`waitFor*` command directly following a
`waitFor*` command. -/
def willRunCommandScan (d : Nat) (last : Option CommandMeta) :
    List CommandMeta → Nat × Option CommandMeta
  | [] => (d, last)
  | command :: rest =>
      let d := if command.name = "goto" then command.id else d
      let d :=
        if lastIsWaitFor last = true ∧ ¬ isWaitForName command.name then command.id
        else d
      willRunCommandScan d (some command) rest

/-- `LocationTracker.willRunCommand`: the new default
`waitForLocation` anchor command id computed before running `newCommand`,
starting from the tracker's current default `d`. -/
def willRunCommand (newCommand : CommandMeta) (previousCommands : List CommandMeta)
    (d : Nat) : Nat :=
  let scanned := willRunCommandScan d none previousCommands
  if newCommand.name = "waitForLocation" ∧ lastIsWaitFor scanned.2 = true then newCommand.id
  else scanned.1

/-- Claim-side restatement of `willRunCommand` for the refinement check: a
previous command is an anchor candidate if it is a `goto` or the first
non-`waitFor*` command immediately following a run of `waitFor*` commands;
the anchor is the last candidate found in scan order, with the special case
for a `waitForLocation` issued right after a `waitFor*` command. -/
def anchorCandidates (prev : Option CommandMeta) : List CommandMeta → List CommandMeta
  | [] => []
  | command :: rest =>
      let isCandidate :=
        command.name = "goto" ∨
          (lastIsWaitFor prev = true ∧ ¬ isWaitForName command.name)
      (if isCandidate then [command] else []) ++ anchorCandidates (some command) rest

/-- Claim-side anchor: the last candidate's id (the tracker's previous
default when there is none), overridden by the consecutive-`waitFor`
special case. -/
def willRunCommandSpec (newCommand : CommandMeta) (previousCommands : List CommandMeta)
    (d : Nat) : Nat :=
  if newCommand.name = "waitForLocation" ∧
      lastIsWaitFor previousCommands.getLast? = true then newCommand.id
  else (anchorCandidates none previousCommands).getLast?.elim d (fun candidate => candidate.id)

/-- A command's recorded result: the returned value or the thrown error's
representation. -/
inductive CommandResult
  | value (v : String)
  | error (e : String)
  deriving DecidableEq, Repr

/-- A row of the commands table (`ICommandMeta` as persisted). -/
structure CommandRecord where
  id : Nat
  name : String
  startDate : Option Nat
  endDate : Option Nat
  result : Option CommandResult
  deriving DecidableEq, Repr

/-- `db.commands.insert`: the store's insert is an upsert by command id —
a second insert with the same id performs an update (the source's NOTE on
the second insert in `runCommand`). -/
def commandsInsert (table : List CommandRecord) (r : CommandRecord) : List CommandRecord :=
  if table.any (fun x => x.id = r.id) then
    table.map (fun x => if x.id = r.id then r else x)
  else table ++ [r]

/-- What the wrapped command function does when run. -/
inductive CommandOutcome
  | returns (v : String)
  | throws (e : String)
  deriving DecidableEq, Repr

/-- What `runCommand` itself does towards its caller. -/
inductive RunCommandCaller
  | returns (v : String)
  | raises (e : String)
  deriving DecidableEq, Repr

/-- The recorded `result` of a command: the returned value, or — through
the `catch` block's `result = err` — the thrown error's representation. -/
def commandResultOf : CommandOutcome → CommandResult
  | .returns v => .value v
  | .throws e => .error e

/-- `SessionState.runCommand`: insert the start record (startDate set, no
end fields) before the wrapped function executes, then — in the `finally`
block, so also when the function throws — insert the end record with
`endDate` and `result` set to the returned value or the thrown error, and
re-raise any thrown error to the caller.  The returned list is the ordered
trace of table inserts performed. -/
def runCommand (table : List CommandRecord) (meta : CommandMeta)
    (outcome : CommandOutcome) (startTime endTime : Nat) :
    List CommandRecord × RunCommandCaller × List CommandRecord :=
  let startRecord : CommandRecord :=
    { id := meta.id, name := meta.name, startDate := some startTime,
      endDate := none, result := none }
  let table1 := commandsInsert table startRecord
  let result : CommandResult := commandResultOf outcome
  let caller : RunCommandCaller :=
    match outcome with
    | .returns v => .returns v
    | .throws e => .raises e
  let endRecord : CommandRecord :=
    { startRecord with endDate := some endTime, result := some result }
  let table2 := commandsInsert table1 endRecord
  (table2, caller, [startRecord, endRecord])

/-- A captured websocket message (`IWebsocketResourceMessage`). -/
structure WebsocketMessage where
  resourceId : Nat
  messageId : Nat
  fromServer : Bool
  message : String
  deriving DecidableEq, Repr

/-- One resource registered under a low-level browser request id. -/
structure ResourceRef where
  resourceId : Nat
  url : String
  deriving DecidableEq, Repr

/-- The slice of `SessionState` driving websocket capture and fan-out.
`deliveryLog` is the observation log of listener invocations, in call
order: each entry is (listener id, message delivered). -/
structure WsState where
  websocketMessages : List WebsocketMessage
  websocketListeners : Nat → List Nat
  browserRequestIdToResources : String → List ResourceRef
  websocketMessageIdCounter : Nat
  deliveryLog : List (Nat × WebsocketMessage)

/-- `SessionState.onWebsocketMessages`: append the listener to the
resource's listener list and synchronously replay every previously
captured message for that resource, in capture order. -/
def onWebsocketMessages (st : WsState) (resourceId : Nat) (listenerId : Nat) : WsState :=
  { st with
    websocketListeners := fun rid =>
      if rid = resourceId then st.websocketListeners rid ++ [listenerId]
      else st.websocketListeners rid,
    deliveryLog := st.deliveryLog ++
      (st.websocketMessages.filter (fun m => m.resourceId = resourceId)).map
        (fun m => (listenerId, m)) }

/-- `SessionState.captureWebsocketMessage`: resolve the resource id via the
last entry of the browser request id's redirect chain (dropping the
message when the request id is unregistered), assign the next message id,
record the message and fan it out to the resource's listeners in
registration order. -/
def captureWebsocketMessage (st : WsState) (browserRequestId : String)
    (isFromServer : Bool) (message : String) : WsState × Option WebsocketMessage :=
  let resources := st.browserRequestIdToResources browserRequestId
  match resources.getLast? with
  | none => (st, none)
  | some finalRedirect =>
      let resourceMessage : WebsocketMessage :=
        { resourceId := finalRedirect.resourceId,
          messageId := st.websocketMessageIdCounter + 1,
          fromServer := isFromServer,
          message := message }
      let listeners := st.websocketListeners resourceMessage.resourceId
      ({ st with
         websocketMessages := st.websocketMessages ++ [resourceMessage],
         websocketMessageIdCounter := st.websocketMessageIdCounter + 1,
         deliveryLog := st.deliveryLog ++ listeners.map (fun l => (l, resourceMessage)) },
       some resourceMessage)

/-- The messages delivered to one listener, in delivery order. -/
def deliveriesTo (st : WsState) (listenerId : Nat) : List WebsocketMessage :=
  (st.deliveryLog.filter (fun p => p.1 = listenerId)).map (fun p => p.2)

/-- A command row as inspected by `checkForResponsive`: only its end date
and result type matter there. -/
structure ResponsiveCommand where
  endDate : Option Nat
  resultType : Option String
  deriving DecidableEq, Repr

/-- `command.resultType?.includes('Error')` (false when `resultType` is
absent). -/
def resultTypeIncludesError (resultType : Option String) : Bool :=
  match resultType with
  | none => false
  | some s => (s.splitOn ("Error")).length > 1

/-- The slice of `SessionState` that `checkForResponsive` reads. -/
structure ResponsiveState where
  createDate : Nat
  navigationsByTabId : List NavState
  commands : List ResponsiveCommand
  lastErrorTime : Option Nat
  deriving DecidableEq, Repr

/-- `navigation.top?.stateChanges?.get('AllContentLoaded')`. -/
def tabAllContentLoaded (navs : NavState) : Option Nat :=
  match navs.top with
  | none => none
  | some nav => nav.stateChanges.lookup .AllContentLoaded

/-- The body of `checkForResponsive`'s inner command loop, for one tab's
`allContentLoaded` value: a completed non-error command end date later than
the running last-success raises it, but only when the tab has a completed
content load. -/
def commandSuccessFold (allContentLoaded : Option Nat) (acc : Nat)
    (command : ResponsiveCommand) : Nat :=
  match command.endDate with
  | none => acc
  | some endDate =>
      if allContentLoaded.isSome ∧ endDate > acc ∧
          ¬ resultTypeIncludesError command.resultType = true then endDate
      else acc

/-- One iteration of `checkForResponsive`'s per-tab loop: raise the running
last-success date to the tab's completed content load (or navigation start)
and then to every later completed non-error command end date. -/
def checkTabFold (commands : List ResponsiveCommand) (acc : Nat) (navs : NavState) : Nat :=
  let allContentLoaded := tabAllContentLoaded navs
  let lastPageTime :=
    match allContentLoaded with
    | some t => some t
    | none => navs.top.map (fun nav => nav.initiatedTime)
  let acc :=
    match lastPageTime with
    | some t => if t > acc then t else acc
    | none => acc
  commands.foldl (commandSuccessFold allContentLoaded) acc

/-- The last-success timestamp computed by `SessionState.checkForResponsive`:
the session's create date raised across all tabs. -/
def lastSuccessDate (st : ResponsiveState) : Nat :=
  st.navigationsByTabId.foldl (checkTabFold st.commands) st.createDate

/-- `checkForResponsive().hasRecentErrors`: the last captured error
timestamp is at or after the last-success timestamp (false when no error
was ever captured, matching the source's undefined comparison). -/
def hasRecentErrors (st : ResponsiveState) : Bool :=
  match st.lastErrorTime with
  | none => false
  | some e => e ≥ lastSuccessDate st

/-- Log levels relevant to `SessionState.onLogEvent`. -/
inductive LogLevel
  | stats
  | info
  | error
  deriving DecidableEq, Repr

/-- A log entry as consumed by `SessionState.onLogEvent`. -/
structure SessionLogEntry where
  sessionId : Option String
  level : LogLevel
  timestamp : Nat
  deriving DecidableEq, Repr

/-- `SessionState.onLogEvent`: for entries of this session (or with no
session id), an error-level entry updates `lastErrorTime` to its
timestamp. -/
def onLogEvent (st : ResponsiveState) (sessionId : String) (entry : SessionLogEntry) :
    ResponsiveState :=
  if (entry.sessionId = some sessionId ∨ entry.sessionId = none) ∧ entry.level = .error then
    { st with lastErrorTime := some entry.timestamp }
  else st

/-- An `Error` instance thrown during command dispatch: message, stack and
any extra enumerable fields. -/
structure ErrorObject where
  message : String
  stack : String
  extra : List (String × String)
  deriving DecidableEq, Repr

/-- How the dispatched command body behaves: returns a value, throws an
`Error`, or throws a non-`Error` value. -/
inductive DispatchExec
  | value (v : String)
  | raised (e : ErrorObject)
  | raisedNonError (description : String)
  deriving DecidableEq, Repr

/-- The `data` field of a core response: a value, the structured
`{message, stack, ...error}` payload built in the `catch` block, or an
`Error` object built for unknown commands / non-`Error` throwables. -/
inductive ResponseData
  | value (v : String)
  | structuredError (message stack : String) (extra : List (String × String))
  | errorObject (message : String)
  deriving DecidableEq, Repr

/-- `ICoreResponsePayload`. -/
structure ResponsePayload where
  responseId : Nat
  commandId : Option Nat
  data : ResponseData
  isError : Bool
  deriving DecidableEq, Repr

/-- The connection state `handleRequest` can observe or change. -/
structure ConnectionState where
  isClosing : Bool
  isPersistent : Bool
  deriving DecidableEq, Repr

/-- `CoreServerConnection.handleRequest`: dispatch to a connection-level
method when the command names one, otherwise to the addressed tab's
function when it exists, otherwise answer with a descriptive `Error`
naming the command; any throw is caught and turned into a structured error
payload.  The result is the emitted response, the (unchanged) connection
state, and whether a `close` event was emitted (never). -/
def handleRequest (conn : ConnectionState) (messageId : Nat) (command : String)
    (commandInConnection : Bool) (tabHasFunction : Bool) (typeofTabCommand : String)
    (exec : DispatchExec) (lastCommandId : Option Nat) :
    ResponsePayload × ConnectionState × Bool :=
  let run : DispatchExec → ResponseData × Bool := fun exec =>
    match exec with
    | .value v => (.value v, false)
    | .raised e => (.structuredError e.message e.stack e.extra, true)
    | .raisedNonError s => (.errorObject ("Unknown error occurred " ++ s), true)
  let result : ResponseData × Bool :=
    if commandInConnection then run exec
    else if tabHasFunction then run exec
    else
      (.errorObject
        ("Command not available on tab (" ++ command ++ " - " ++ typeofTabCommand ++ ")"),
       true)
  ({ responseId := messageId, commandId := lastCommandId,
     data := result.1, isError := result.2 },
   conn, false)

/-- Modelled from the spec: an admission event of the `GlobalPool` (not
under src/) — a session-creation request arriving, or an open session
closing and releasing its slot. -/
inductive PoolEvent
  | request (rid : Nat)
  | close
  deriving DecidableEq, Repr

/-- Modelled from the spec: the `GlobalPool` state — the configured
capacity, the number of concurrently open sessions, and the FIFO queue of
suspended creation requests. -/
structure PoolState where
  maxConcurrentAgentsCount : Nat
  activeCount : Nat
  queue : List Nat
  deriving DecidableEq, Repr

/-- Modelled from the spec: one `GlobalPool` transition.  A request below
capacity is admitted at once; a request at capacity suspends (it joins the
queue, it does not fail); a close releases a slot and immediately admits
the queue's head if any.  The second component lists the request ids whose
`createSession` completes at this event. -/
def poolStep (st : PoolState) (e : PoolEvent) : PoolState × List Nat :=
  match e with
  | .request rid =>
      if st.activeCount < st.maxConcurrentAgentsCount then
        ({ st with activeCount := st.activeCount + 1 }, [rid])
      else ({ st with queue := st.queue ++ [rid] }, [])
  | .close =>
      if st.activeCount = 0 then (st, [])
      else
        match st.queue with
        | [] => ({ st with activeCount := st.activeCount - 1 }, [])
        | next :: rest => ({ st with queue := rest }, [next])

/-- The pool before any session exists. -/
def poolInit (k : Nat) : PoolState :=
  { maxConcurrentAgentsCount := k, activeCount := 0, queue := [] }

/-- Run the pool over an event list, collecting the admissions of each
event. -/
def poolRun (st : PoolState) : List PoolEvent → PoolState × List (List Nat)
  | [] => (st, [])
  | e :: rest =>
      let stepped := poolStep st e
      let tail := poolRun stepped.1 rest
      (tail.1, stepped.2 :: tail.2)

/-- Every state the pool passes through while consuming an event list,
including the first and last. -/
def poolTrace (st : PoolState) : List PoolEvent → List PoolState
  | [] => [st]
  | e :: rest => st :: poolTrace (poolStep st e).1 rest

/-! Characterization lemmas for the wake loop of `onPipelineStatusChange`. -/

theorem wakeCond_some {newStep step : Nat} {st : PipelineStatus}
    (h : wakeCond newStep step = some st) :
    stepOf st = step ∧ (st ≠ .HttpRedirected ∨ step = newStep) := by
  unfold wakeCond at h
  cases hs : statusOfStep step with
  | none => rw [hs] at h; exact absurd h (by simp)
  | some status =>
      rw [hs] at h
      dsimp only at h
      by_cases hc : status ≠ PipelineStatus.HttpRedirected ∨ step = newStep
      · rw [if_pos hc] at h
        cases h
        exact ⟨stepOf_of_statusOfStep hs, hc⟩
      · rw [if_neg hc] at h
        exact absurd h (by simp)

theorem wakeCond_eq_some {newStep : Nat} {st : PipelineStatus}
    (h : st ≠ .HttpRedirected ∨ stepOf st = newStep) :
    wakeCond newStep (stepOf st) = some st := by
  unfold wakeCond
  rw [statusOfStep_stepOf]
  exact if_pos h

theorem wakeSteps_map_fst (t : LocationTracker) (steps : List Nat) (newStep : Nat) :
    (wakeSteps t steps newStep).2.map Prod.fst = steps.filterMap (wakeCond newStep) := by
  induction steps generalizing t with
  | nil => rfl
  | cons step rest ih =>
      unfold wakeSteps
      cases h : wakeCond newStep step with
      | none => simpa [h, List.filterMap_cons] using ih t
      | some status => simp [h, List.filterMap_cons, ih]

theorem wakeSteps_cbs (t : LocationTracker) (steps : List Nat) (newStep : Nat)
    (σ : ILocationStatus) :
    (wakeSteps t steps newStep).1.waitForCbs σ =
      if σ ∈ (steps.filterMap (wakeCond newStep)).map ILocationStatus.pipeline then []
      else t.waitForCbs σ := by
  induction steps generalizing t with
  | nil => simp [wakeSteps]
  | cons step rest ih =>
      unfold wakeSteps
      cases h : wakeCond newStep step with
      | none => simp [h, List.filterMap_cons, ih]
      | some status =>
          simp only [h, List.filterMap_cons, List.map_cons, List.mem_cons]
          rw [ih]
          by_cases hmem : σ ∈ (rest.filterMap (wakeCond newStep)).map ILocationStatus.pipeline
          · simp [hmem]
          · by_cases heq : σ = ILocationStatus.pipeline status
            · simp [hmem, heq, runWaitForCbs]
            · simp [hmem, heq, runWaitForCbs]

theorem wakeSteps_default (t : LocationTracker) (steps : List Nat) (newStep : Nat) :
    (wakeSteps t steps newStep).1.defaultWaitForLocationCommandId =
      t.defaultWaitForLocationCommandId := by
  induction steps generalizing t with
  | nil => rfl
  | cons step rest ih =>
      unfold wakeSteps
      cases h : wakeCond newStep step with
      | none => exact ih t
      | some status => simpa [h] using ih _

theorem wakeSteps_entry_eq (steps : List Nat) (newStep : Nat) :
    ∀ (t : LocationTracker),
      (steps.filterMap (wakeCond newStep)).Nodup →
      ∀ (st : PipelineStatus) (l : List Nat),
        (st, l) ∈ (wakeSteps t steps newStep).2 → l = t.waitForCbs (.pipeline st) := by
  induction steps with
  | nil =>
      intro t _ st l hmem
      simp [wakeSteps] at hmem
  | cons step rest ih =>
      intro t hnd st l hmem
      unfold wakeSteps at hmem
      cases h : wakeCond newStep step with
      | none =>
          rw [h] at hmem
          simp only [List.filterMap_cons, h] at hnd
          exact ih t hnd st l hmem
      | some status =>
          rw [h] at hmem
          simp only [List.filterMap_cons, h] at hnd
          simp only [List.mem_cons] at hmem
          rcases hmem with hhead | htail
          · cases hhead
            rfl
          · have hst : st ∈ (rest.filterMap (wakeCond newStep)) := by
              have hfst := wakeSteps_map_fst ((runWaitForCbs t (.pipeline status)).1) rest newStep
              have hm : st ∈ ((wakeSteps (runWaitForCbs t (.pipeline status)).1
                  rest newStep).2.map Prod.fst) :=
                List.mem_map_of_mem Prod.fst htail
              rwa [hfst] at hm
            have hne : st ≠ status := by
              intro hcontra
              subst hcontra
              exact (List.nodup_cons.mp hnd).1 hst
            have hrec := ih ((runWaitForCbs t (.pipeline status)).1)
              (List.nodup_cons.mp hnd).2 st l htail
            rw [hrec]
            simp [runWaitForCbs, hne]

theorem wakeSteps_mem_of (steps : List Nat) (newStep : Nat) :
    ∀ (t : LocationTracker) (st : PipelineStatus),
      st ∈ steps.filterMap (wakeCond newStep) →
      (steps.filterMap (wakeCond newStep)).Nodup →
      (st, t.waitForCbs (.pipeline st)) ∈ (wakeSteps t steps newStep).2 := by
  induction steps with
  | nil =>
      intro t st hst _
      simp at hst
  | cons step rest ih =>
      intro t st hst hnd
      simp only [List.filterMap_cons] at hst hnd
      unfold wakeSteps
      cases h : wakeCond newStep step with
      | none =>
          rw [h] at hst hnd
          exact ih t st hst hnd
      | some status =>
          rw [h] at hst hnd
          simp only [List.mem_cons] at hst
          rcases hst with hhead | htail
          · subst hhead
            simp only [List.mem_cons]
            exact Or.inl rfl
          · have hne : st ≠ status := by
              intro hcontra
              subst hcontra
              exact (List.nodup_cons.mp hnd).1 htail
            have hrec := ih ((runWaitForCbs t (.pipeline status)).1) st htail
              (List.nodup_cons.mp hnd).2
            simp only [runWaitForCbs] at hrec
            simp only [List.mem_cons]
            right
            simpa [hne] using hrec

theorem mem_rangeSteps {lastStep count x : Nat} :
    x ∈ (List.range count).map (fun i => lastStep + 1 + i) ↔
      lastStep < x ∧ x ≤ lastStep + count := by
  simp only [List.mem_map, List.mem_range]
  constructor
  · rintro ⟨i, hi, rfl⟩
    omega
  · rintro ⟨h1, h2⟩
    exact ⟨x - lastStep - 1, by omega, by omega⟩

theorem nodup_rangeSteps (lastStep count : Nat) :
    ((List.range count).map (fun i => lastStep + 1 + i)).Nodup :=
  (List.nodup_range count).map (fun a b h => by omega)

theorem nodup_filterMap_wakeCond {steps : List Nat} (h : steps.Nodup) (newStep : Nat) :
    (steps.filterMap (wakeCond newStep)).Nodup := by
  refine List.Nodup.filterMap ?_ h
  intro a a' b hb hb'
  rw [Option.mem_def] at hb hb'
  have ha := (wakeCond_some hb).1
  have ha' := (wakeCond_some hb').1
  omega

theorem mem_filterMap_wakeCond {steps : List Nat} {newStep : Nat} {st : PipelineStatus} :
    st ∈ steps.filterMap (wakeCond newStep) ↔
      stepOf st ∈ steps ∧ (st ≠ .HttpRedirected ∨ stepOf st = newStep) := by
  rw [List.mem_filterMap]
  constructor
  · rintro ⟨step, hstep, hcond⟩
    obtain ⟨heq, hc⟩ := wakeCond_some hcond
    subst heq
    exact ⟨hstep, hc⟩
  · rintro ⟨hstep, hc⟩
    exact ⟨stepOf st, hstep, wakeCond_eq_some hc⟩

/-- The announced statuses of one `status-change` event: exactly those at
steps strictly above the tracker's previous position and at most the
incoming step, except an `HttpRedirected` that is not the final step. -/
theorem onPipelineStatusChange_fst_mem (t : LocationTracker) (lastStep : Nat)
    (newStatus : PipelineStatus) (st : PipelineStatus) :
    st ∈ ((onPipelineStatusChange t lastStep newStatus).2.map Prod.fst) ↔
      lastStep < stepOf st ∧ stepOf st ≤ stepOf newStatus ∧
        (st ≠ .HttpRedirected ∨ stepOf st = stepOf newStatus) := by
  unfold onPipelineStatusChange
  rw [wakeSteps_map_fst, mem_filterMap_wakeCond, mem_rangeSteps]
  by_cases hgt : stepOf newStatus > lastStep
  · simp only [if_pos hgt]
    constructor
    · rintro ⟨⟨h1, h2⟩, h3⟩
      exact ⟨h1, by omega, h3⟩
    · rintro ⟨h1, h2, h3⟩
      exact ⟨⟨h1, by omega⟩, h3⟩
  · simp only [if_neg hgt]
    constructor
    · rintro ⟨⟨h1, h2⟩, h3⟩
      omega
    · rintro ⟨h1, h2, h3⟩
      omega

theorem onPipelineStatusChange_fst_nodup (t : LocationTracker) (lastStep : Nat)
    (newStatus : PipelineStatus) :
    ((onPipelineStatusChange t lastStep newStatus).2.map Prod.fst).Nodup := by
  unfold onPipelineStatusChange
  rw [wakeSteps_map_fst]
  exact nodup_filterMap_wakeCond (nodup_rangeSteps _ _) _

/-- Per-status wake count of one `status-change` event: 1 for each
announced status, 0 otherwise. -/
theorem onPipelineStatusChange_count (t : LocationTracker) (lastStep : Nat)
    (newStatus : PipelineStatus) (st : PipelineStatus) :
    ((onPipelineStatusChange t lastStep newStatus).2.map Prod.fst).count st =
      if lastStep < stepOf st ∧ stepOf st ≤ stepOf newStatus ∧
          (st ≠ .HttpRedirected ∨ stepOf st = stepOf newStatus) then 1 else 0 := by
  by_cases h : lastStep < stepOf st ∧ stepOf st ≤ stepOf newStatus ∧
      (st ≠ .HttpRedirected ∨ stepOf st = stepOf newStatus)
  · rw [if_pos h]
    exact List.count_eq_one_of_mem (onPipelineStatusChange_fst_nodup t lastStep newStatus)
      ((onPipelineStatusChange_fst_mem t lastStep newStatus st).mpr h)
  · rw [if_neg h]
    exact List.count_eq_zero_of_not_mem
      (fun hmem => h ((onPipelineStatusChange_fst_mem t lastStep newStatus st).mp hmem))

/-- Each woken entry of one `status-change` event carries exactly the
waiters registered for that status, in FIFO registration order. -/
theorem onPipelineStatusChange_entry (t : LocationTracker) (lastStep : Nat)
    (newStatus : PipelineStatus) {st : PipelineStatus} {l : List Nat}
    (h : (st, l) ∈ (onPipelineStatusChange t lastStep newStatus).2) :
    l = t.waitForCbs (.pipeline st) := by
  unfold onPipelineStatusChange at h
  exact wakeSteps_entry_eq _ _ t
    (nodup_filterMap_wakeCond (nodup_rangeSteps _ _) _) st l h

/-- Every announced status's full waiter list appears in the woken
output. -/
theorem onPipelineStatusChange_mem_of (t : LocationTracker) (lastStep : Nat)
    (newStatus : PipelineStatus) {st : PipelineStatus}
    (h : lastStep < stepOf st ∧ stepOf st ≤ stepOf newStatus ∧
        (st ≠ .HttpRedirected ∨ stepOf st = stepOf newStatus)) :
    (st, t.waitForCbs (.pipeline st)) ∈ (onPipelineStatusChange t lastStep newStatus).2 := by
  have hm : st ∈ ((onPipelineStatusChange t lastStep newStatus).2.map Prod.fst) :=
    (onPipelineStatusChange_fst_mem t lastStep newStatus st).mpr h
  unfold onPipelineStatusChange at hm ⊢
  rw [wakeSteps_map_fst] at hm
  exact wakeSteps_mem_of _ _ t st hm (nodup_filterMap_wakeCond (nodup_rangeSteps _ _) _)

/-- After one `status-change` event the waiter list of every announced
status is cleared; all other lists are untouched. -/
theorem onPipelineStatusChange_cbs (t : LocationTracker) (lastStep : Nat)
    (newStatus : PipelineStatus) (st : PipelineStatus) :
    (onPipelineStatusChange t lastStep newStatus).1.waitForCbs (.pipeline st) =
      if lastStep < stepOf st ∧ stepOf st ≤ stepOf newStatus ∧
          (st ≠ .HttpRedirected ∨ stepOf st = stepOf newStatus) then []
      else t.waitForCbs (.pipeline st) := by
  have hmem := onPipelineStatusChange_fst_mem t lastStep newStatus st
  unfold onPipelineStatusChange at hmem ⊢
  rw [wakeSteps_map_fst] at hmem
  rw [wakeSteps_cbs]
  refine if_congr ?_ rfl rfl
  rw [List.mem_map]
  constructor
  · rintro ⟨x, hx, hxeq⟩
    simp only [ILocationStatus.pipeline.injEq] at hxeq
    subst hxeq
    exact hmem.mp hx
  · intro hC
    exact ⟨st, hmem.mpr hC, rfl⟩

/-- Trigger waiter lists are untouched by pipeline `status-change`
events. -/
theorem onPipelineStatusChange_cbs_trigger (t : LocationTracker) (lastStep : Nat)
    (newStatus : PipelineStatus) (trig : LocationTrigger) :
    (onPipelineStatusChange t lastStep newStatus).1.waitForCbs (.trigger trig) =
      t.waitForCbs (.trigger trig) := by
  unfold onPipelineStatusChange
  rw [wakeSteps_cbs]
  rw [if_neg]
  intro hcontra
  rw [List.mem_map] at hcontra
  obtain ⟨x, _, hxeq⟩ := hcontra
  exact absurd hxeq (by simp)

/-! Claim C4: command durability under `runCommand`. -/

theorem commandsInsert_fresh (table : List CommandRecord) (r : CommandRecord)
    (h : ∀ x ∈ table, x.id ≠ r.id) : commandsInsert table r = table ++ [r] := by
  unfold commandsInsert
  rw [if_neg]
  simp only [List.any_eq_true, decide_eq_true_eq, not_exists]
  intro x hx
  exact h x hx.1 hx.2

theorem commandsInsert_append_update (table : List CommandRecord) (sR eR : CommandRecord)
    (hid : eR.id = sR.id) (h : ∀ x ∈ table, x.id ≠ sR.id) :
    commandsInsert (table ++ [sR]) eR = table ++ [eR] := by
  unfold commandsInsert
  rw [if_pos]
  · rw [List.map_append]
    congr 1
    · have hmap : List.map (fun x => if x.id = eR.id then eR else x) table =
          List.map id table := by
        refine List.map_congr_left ?_
        intro x hx
        simp only [id]
        rw [if_neg]
        rw [hid]
        exact h x hx
      rw [hmap, List.map_id]
    · simp [hid]
  · simp [hid]

/-- C4: `runCommand` inserts the start record (no end fields) before the
wrapped function executes and always inserts the end record afterwards;
when the function throws, the error is re-raised to the caller and the
commands table holds exactly one row for the command id, with `endDate`
set and `result` equal to the thrown error's representation. -/
theorem claim_C4_runCommand_durability (table : List CommandRecord) (meta : CommandMeta)
    (outcome : CommandOutcome) (t0 t1 : Nat)
    (hfresh : ∀ r ∈ table, r.id ≠ meta.id) :
    (runCommand table meta outcome t0 t1).2.2 =
      [{ id := meta.id, name := meta.name, startDate := some t0,
         endDate := none, result := none },
       { id := meta.id, name := meta.name, startDate := some t0,
         endDate := some t1, result := some (commandResultOf outcome) }] ∧
    (∀ e, outcome = .throws e →
      (runCommand table meta outcome t0 t1).2.1 = .raises e ∧
      (runCommand table meta outcome t0 t1).1.filter (fun r => r.id = meta.id) =
        [{ id := meta.id, name := meta.name, startDate := some t0,
           endDate := some t1, result := some (.error e) }]) := by
  refine ⟨rfl, ?_⟩
  rintro e rfl
  refine ⟨rfl, ?_⟩
  have h1 : (runCommand table meta (.throws e) t0 t1).1 =
      table ++ [{ id := meta.id, name := meta.name, startDate := some t0,
                  endDate := some t1, result := some (.error e) }] := by
    unfold runCommand
    dsimp only
    have hs := commandsInsert_fresh table
      { id := meta.id, name := meta.name, startDate := some t0,
        endDate := none, result := none }
      (fun x hx => hfresh x hx)
    rw [hs]
    exact commandsInsert_append_update table _ _ rfl (fun x hx => hfresh x hx)
  rw [h1, List.filter_append]
  have h2 : table.filter (fun r => r.id = meta.id) = [] := by
    rw [List.filter_eq_nil_iff]
    intro x hx
    simp only [decide_eq_true_eq]
    exact hfresh x hx
  rw [h2]
  simp

/-- C4 witness. -/
theorem claim_C4_witness :
    ((runCommand [] ⟨3, "click"⟩ (.throws ("boom")) 10 12).2.1 =
        .raises ("boom") ∧
      (runCommand [] ⟨3, "click"⟩ (.throws ("boom")) 10 12).1.filter
          (fun r => r.id = 3) =
        [{ id := 3, name := "click", startDate := some 10,
           endDate := some 12, result := some (.error ("boom")) }]) :=
  (claim_C4_runCommand_durability [] ⟨3, "click"⟩ (.throws ("boom")) 10 12
    (by intro r hr; simp at hr)).2 ("boom") rfl

/-! Claim C8: dispatch failures become structured error responses and the
connection stays open. -/

/-- C8: `handleRequest` never closes the connection; an unknown command
(neither a connection method nor a tab function) is answered with
`isError` and a descriptive `Error` naming the command, and a command
whose execution throws an `Error` is answered with `isError` and the
structured `{message, stack, ...error}` payload. -/
theorem claim_C8_handleRequest_errors (conn : ConnectionState) (messageId : Nat)
    (command : String) (commandInConnection tabHasFunction : Bool)
    (typeofTabCommand : String) (exec : DispatchExec) (lastCommandId : Option Nat) :
    ((handleRequest conn messageId command commandInConnection tabHasFunction
        typeofTabCommand exec lastCommandId).2.1 = conn ∧
      (handleRequest conn messageId command commandInConnection tabHasFunction
        typeofTabCommand exec lastCommandId).2.2 = false) ∧
    (commandInConnection = false → tabHasFunction = false →
      (handleRequest conn messageId command commandInConnection tabHasFunction
          typeofTabCommand exec lastCommandId).1.isError = true ∧
      (handleRequest conn messageId command commandInConnection tabHasFunction
          typeofTabCommand exec lastCommandId).1.data =
        .errorObject
          ("Command not available on tab (" ++ command ++ " - " ++ typeofTabCommand ++ ")")) ∧
    (∀ e, exec = .raised e → (commandInConnection = true ∨ tabHasFunction = true) →
      (handleRequest conn messageId command commandInConnection tabHasFunction
          typeofTabCommand exec lastCommandId).1.isError = true ∧
      (handleRequest conn messageId command commandInConnection tabHasFunction
          typeofTabCommand exec lastCommandId).1.data =
        .structuredError e.message e.stack e.extra) := by
  refine ⟨⟨rfl, rfl⟩, ?_, ?_⟩
  · rintro rfl rfl
    exact ⟨rfl, rfl⟩
  · rintro e rfl hin
    rcases hin with h | h
    · subst h
      exact ⟨rfl, rfl⟩
    · subst h
      cases commandInConnection <;> exact ⟨rfl, rfl⟩

/-- C8 witness. -/
theorem claim_C8_witness :
    (handleRequest ⟨false, false⟩ 5 ("flyToMoon") false false ("undefined")
        (.value ("unused")) none).1.isError = true ∧
      (handleRequest ⟨false, false⟩ 5 ("flyToMoon") false false ("undefined")
        (.value ("unused")) none).1.data =
        .errorObject ("Command not available on tab (flyToMoon - undefined)") :=
  (claim_C8_handleRequest_errors ⟨false, false⟩ 5 ("flyToMoon") false false
    ("undefined") (.value ("unused")) none).2.1 rfl rfl

/-! Claim C10: the `waitFor` status assertion. -/

/-- C10: a status string that is neither `READY` nor a member of
`LocationStatus` makes `waitFor` fail its assertion with
`Invalid navigation status: <status>` and register nothing, while any
valid status (or `READY`) never reaches the assertion failure. -/
theorem claim_C10_waitFor_assert (navs : NavState) (t : LocationTracker)
    (status : String) (sinceCommandId : Option Nat) (inclusiveOfCommandId : Bool)
    (waiterId : Nat) :
    (status ≠ "READY" → locationStatusOfString status = none →
      waitFor navs t status sinceCommandId inclusiveOfCommandId waiterId =
        (.assertionError ("Invalid navigation status: " ++ status), t)) ∧
    (status = "READY" ∨ (locationStatusOfString status).isSome = true →
      (waitFor navs t status sinceCommandId inclusiveOfCommandId waiterId).1 = .resolved ∨
      (waitFor navs t status sinceCommandId inclusiveOfCommandId waiterId).1 =
        .registered) := by
  constructor
  · intro hready hnone
    unfold waitFor
    rw [if_neg hready, hnone]
  · intro hvalid
    unfold waitFor
    rcases hvalid with hready | hsome
    · rw [if_pos hready]
      cases navs.top with
      | none => exact Or.inl rfl
      | some nav =>
          cases hw : waitForStatus navs t (.pipeline .DomContentLoaded)
              sinceCommandId inclusiveOfCommandId waiterId with
          | mk outcome t' =>
              cases outcome
              · exact Or.inl rfl
              · exact Or.inr rfl
    · by_cases hready : status = "READY"
      · rw [if_pos hready]
        cases navs.top with
        | none => exact Or.inl rfl
        | some nav =>
            cases hw : waitForStatus navs t (.pipeline .DomContentLoaded)
                sinceCommandId inclusiveOfCommandId waiterId with
            | mk outcome t' =>
                cases outcome
                · exact Or.inl rfl
                · exact Or.inr rfl
      · rw [if_neg hready]
        cases hs : locationStatusOfString status with
        | none => rw [hs] at hsome; simp at hsome
        | some st =>
            dsimp only
            cases hw : waitForStatus navs t st sinceCommandId inclusiveOfCommandId waiterId with
            | mk outcome t' =>
                cases outcome
                · exact Or.inl rfl
                · exact Or.inr rfl

/-- C10 witness. -/
theorem claim_C10_witness :
    waitFor ⟨[]⟩ ⟨0, fun _ => []⟩ ("PaintingStable") none true 0 =
      (.assertionError ("Invalid navigation status: PaintingStable"),
       (⟨0, fun _ => []⟩ : LocationTracker)) :=
  (claim_C10_waitFor_assert ⟨[]⟩ ⟨0, fun _ => []⟩ ("PaintingStable") none true 0).1
    (by decide) rfl

/-! Claim C9: the `willRunCommand` anchor computation. -/

theorem willRunCommandScan_cons (d : Nat) (last : Option CommandMeta)
    (c : CommandMeta) (rest : List CommandMeta) :
    willRunCommandScan d last (c :: rest) =
      willRunCommandScan
        (if lastIsWaitFor last = true ∧ ¬ isWaitForName c.name then c.id
         else if c.name = "goto" then c.id else d)
        (some c) rest := rfl

theorem anchorCandidates_cons (prev : Option CommandMeta) (c : CommandMeta)
    (rest : List CommandMeta) :
    anchorCandidates prev (c :: rest) =
      (if c.name = "goto" ∨ (lastIsWaitFor prev = true ∧ ¬ isWaitForName c.name)
        then [c] else []) ++ anchorCandidates (some c) rest := rfl

theorem willRunCommandScan_snd (cmds : List CommandMeta) :
    ∀ (d : Nat) (last : Option CommandMeta),
      (willRunCommandScan d last cmds).2 = cmds.getLast?.elim last some := by
  induction cmds with
  | nil => intro d last; rfl
  | cons c rest ih =>
      intro d last
      rw [willRunCommandScan_cons, ih]
      cases rest with
      | nil => rfl
      | cons r rs =>
          rw [List.getLast?_cons_cons]
          cases h : (r :: rs).getLast? with
          | none =>
              rw [List.getLast?_eq_none_iff] at h
              exact absurd h (by simp)
          | some x => rfl

theorem foldl_pick_last (l : List CommandMeta) :
    ∀ (d : Nat),
      l.foldl (fun _ c => c.id) d = l.getLast?.elim d (fun c => c.id) := by
  induction l with
  | nil => intro d; rfl
  | cons c rest ih =>
      intro d
      rw [List.foldl_cons, ih]
      cases rest with
      | nil => rfl
      | cons r rs =>
          rw [List.getLast?_cons_cons]
          cases h : (r :: rs).getLast? with
          | none =>
              rw [List.getLast?_eq_none_iff] at h
              exact absurd h (by simp)
          | some x => rfl

theorem willRunCommandScan_fst (cmds : List CommandMeta) :
    ∀ (d : Nat) (last : Option CommandMeta),
      (willRunCommandScan d last cmds).1 =
        (anchorCandidates last cmds).foldl (fun _ c => c.id) d := by
  induction cmds with
  | nil => intro d last; rfl
  | cons c rest ih =>
      intro d last
      rw [willRunCommandScan_cons, anchorCandidates_cons, ih, List.foldl_append]
      by_cases hb : lastIsWaitFor last = true ∧ ¬ isWaitForName c.name
      · rw [if_pos hb, if_pos (Or.inr hb)]
        rfl
      · rw [if_neg hb]
        by_cases hg : c.name = "goto"
        · rw [if_pos hg, if_pos (Or.inl hg)]
          rfl
        · have hnc : ¬ (c.name = "goto" ∨
              (lastIsWaitFor last = true ∧ ¬ isWaitForName c.name)) := by
            intro hcontra
            rcases hcontra with h | h
            · exact hg h
            · exact hb h
          rw [if_neg hg, if_neg hnc]
          rfl

/-- C9: `willRunCommand` computes exactly the claim's anchor: the id of
the last candidate found in the scan — a `goto`, or the first
non-`waitFor*` command directly following a run of `waitFor*` commands —
with the new command's own id substituted when a `waitForLocation` follows
a `waitFor*` command. -/
theorem claim_C9_willRunCommand_anchor (newCommand : CommandMeta)
    (previousCommands : List CommandMeta) (d : Nat) :
    willRunCommand newCommand previousCommands d =
      willRunCommandSpec newCommand previousCommands d := by
  unfold willRunCommand willRunCommandSpec
  dsimp only
  rw [willRunCommandScan_snd, willRunCommandScan_fst, foldl_pick_last]
  cases hlast : previousCommands.getLast? with
  | none => rfl
  | some c => rfl

/-! Claim C5: navigation-reason trigger classification. -/

theorem hasTriggerSingle (nav : Navigation) (trig : LocationTrigger) (a : Nat)
    (ha : a ≤ nav.startCommandId) :
    hasTriggerSinceCommand ⟨[nav]⟩ trig a true =
      decide (getTriggerForNavigationReason nav.navigationReason = some trig) := by
  unfold hasTriggerSinceCommand
  simp only [List.any_cons, List.any_nil, Bool.or_false, if_true]
  have hm : (decide (nav.startCommandId > a) || decide (nav.startCommandId ≥ a)) = true := by
    have : nav.startCommandId ≥ a := ha
    simp [this]
  rw [hm, Bool.true_and]

theorem waitForStatus_trigger (navs : NavState) (t : LocationTracker)
    (trig : LocationTrigger) (sinceCommandId : Option Nat) (inclusive : Bool)
    (waiterId : Nat) :
    waitForStatus navs t (.trigger trig) sinceCommandId inclusive waiterId =
      if hasTriggerSinceCommand navs trig
          (sinceCommandId.getD t.defaultWaitForLocationCommandId) inclusive
      then (.resolved, t)
      else (.registered,
        ⟨t.defaultWaitForLocationCommandId,
         fun s => if s = .trigger trig then t.waitForCbs s ++ [waiterId]
                  else t.waitForCbs s⟩) := by
  unfold waitForStatus
  dsimp only
  by_cases h : hasTriggerSinceCommand navs trig
      (sinceCommandId.getD t.defaultWaitForLocationCommandId) inclusive
  · rw [if_pos h, if_pos h]
  · rw [if_neg h, if_neg h]
    rfl

/-- C5: a navigation's reason selects exactly one trigger class.  With a
wait anchored at or before the navigation's start command and that
navigation alone in history: the reload family (`httpHeaderRefresh`,
`metaTagRefresh`, `reload`) satisfies `waitFor('reload')` but not
`waitFor('change')`; every other reason except `newTab` satisfies
`waitFor('change')` but not `waitFor('reload')`; `newTab` satisfies
neither. -/
theorem claim_C5_trigger_classes (nav : Navigation) (t : LocationTracker)
    (a waiterId : Nat) (ha : a ≤ nav.startCommandId) :
    (nav.navigationReason = .httpHeaderRefresh ∨ nav.navigationReason = .metaTagRefresh ∨
        nav.navigationReason = .reload →
      (waitForStatus ⟨[nav]⟩ t (.trigger .reload) (some a) true waiterId).1 = .resolved ∧
      (waitForStatus ⟨[nav]⟩ t (.trigger .change) (some a) true waiterId).1 = .registered) ∧
    (nav.navigationReason ≠ .httpHeaderRefresh → nav.navigationReason ≠ .metaTagRefresh →
        nav.navigationReason ≠ .reload → nav.navigationReason ≠ .newTab →
      (waitForStatus ⟨[nav]⟩ t (.trigger .change) (some a) true waiterId).1 = .resolved ∧
      (waitForStatus ⟨[nav]⟩ t (.trigger .reload) (some a) true waiterId).1 = .registered) ∧
    (nav.navigationReason = .newTab →
      (waitForStatus ⟨[nav]⟩ t (.trigger .reload) (some a) true waiterId).1 = .registered ∧
      (waitForStatus ⟨[nav]⟩ t (.trigger .change) (some a) true waiterId).1 = .registered) := by
  have hreload := waitForStatus_trigger ⟨[nav]⟩ t .reload (some a) true waiterId
  have hchange := waitForStatus_trigger ⟨[nav]⟩ t .change (some a) true waiterId
  have hsingleR := hasTriggerSingle nav .reload a ha
  have hsingleC := hasTriggerSingle nav .change a ha
  simp only [Option.getD_some] at hreload hchange
  refine ⟨?_, ?_, ?_⟩
  · intro hfam
    have htrig : getTriggerForNavigationReason nav.navigationReason = some .reload := by
      rcases hfam with h | h | h <;> rw [h] <;> rfl
    rw [hreload, hchange]
    simp [hsingleR, hsingleC, htrig]
  · intro h1 h2 h3 h4
    have htrig : getTriggerForNavigationReason nav.navigationReason = some .change := by
      unfold getTriggerForNavigationReason
      rw [if_neg h4, if_neg]
      intro hcon
      rcases hcon with h | h | h
      · exact h1 h
      · exact h2 h
      · exact h3 h
    rw [hreload, hchange]
    simp [hsingleR, hsingleC, htrig]
  · intro hnew
    have htrig : getTriggerForNavigationReason nav.navigationReason = none := by
      rw [hnew]
      rfl
    rw [hreload, hchange]
    simp [hsingleR, hsingleC, htrig]

/-- C5 witness. -/
theorem claim_C5_witness :
    (waitForStatus ⟨[⟨.metaTagRefresh, 4, [], 0⟩]⟩ ⟨0, fun _ => []⟩
        (.trigger .reload) (some 4) true 7).1 = .resolved ∧
    (waitForStatus ⟨[⟨.metaTagRefresh, 4, [], 0⟩]⟩ ⟨0, fun _ => []⟩
        (.trigger .change) (some 4) true 7).1 = .registered :=
  (claim_C5_trigger_classes ⟨.metaTagRefresh, 4, [], 0⟩ ⟨0, fun _ => []⟩ 4 7
    (by decide)).1 (Or.inr (Or.inl rfl))

/-! Claim C7: responsiveness check. -/

theorem commandSuccessFold_const (acl : Option Nat) (T1 : Nat) (cmds : List ResponsiveCommand) :
    ∀ (acc : Nat), T1 ≤ acc →
      (∀ c ∈ cmds, c.endDate = none ∨ (∃ e, c.endDate = some e ∧ e ≤ T1) ∨
        resultTypeIncludesError c.resultType = true) →
      cmds.foldl (commandSuccessFold acl) acc = acc := by
  induction cmds with
  | nil => intro acc _ _; rfl
  | cons c rest ih =>
      intro acc hacc hall
      rw [List.foldl_cons]
      have hc := hall c (List.mem_cons_self c rest)
      have hstep : commandSuccessFold acl acc c = acc := by
        unfold commandSuccessFold
        rcases hc with hnone | ⟨e, he, hle⟩ | herr
        · rw [hnone]
        · rw [he]
          dsimp only
          have hn : ¬ (acl.isSome = true ∧ e > acc ∧
              ¬ resultTypeIncludesError c.resultType = true) := by
            intro hcon
            omega
          rw [if_neg hn]
        · cases hed : c.endDate with
          | none => rfl
          | some e =>
              dsimp only
              have hn : ¬ (acl.isSome = true ∧ e > acc ∧
                  ¬ resultTypeIncludesError c.resultType = true) := by
                intro hcon
                exact hcon.2.2 herr
              rw [if_neg hn]
      rw [hstep]
      exact ih acc hacc (fun c hc => hall c (List.mem_cons_of_mem _ hc))

/-- C7: with a completed `AllContentLoaded` at `T1`, a later captured error
at `T2 > T1` and no later successful activity, `checkForResponsive`
reports recent errors; and in general `hasRecentErrors` holds iff the last
captured error timestamp is at or after the computed last-success
timestamp. -/
theorem claim_C7_responsive (st : ResponsiveState) (navs : NavState) (nav : Navigation)
    (T1 T2 : Nat)
    (htabs : st.navigationsByTabId = [navs])
    (htop : navs.top = some nav)
    (hacl : nav.stateChanges.lookup PipelineStatus.AllContentLoaded = some T1)
    (hcreate : st.createDate ≤ T1)
    (herr : st.lastErrorTime = some T2)
    (hT : T1 < T2)
    (hcmds : ∀ c ∈ st.commands, c.endDate = none ∨ (∃ e, c.endDate = some e ∧ e ≤ T1) ∨
      resultTypeIncludesError c.resultType = true) :
    hasRecentErrors st = true ∧
    (∀ st' : ResponsiveState, hasRecentErrors st' = true ↔
      ∃ e, st'.lastErrorTime = some e ∧ lastSuccessDate st' ≤ e) := by
  have hiff : ∀ st' : ResponsiveState, hasRecentErrors st' = true ↔
      ∃ e, st'.lastErrorTime = some e ∧ lastSuccessDate st' ≤ e := by
    intro st'
    unfold hasRecentErrors
    cases h : st'.lastErrorTime with
    | none => simp
    | some e => simp [ge_iff_le]
  refine ⟨?_, hiff⟩
  have hsuccess : lastSuccessDate st = T1 := by
    unfold lastSuccessDate
    rw [htabs, List.foldl_cons, List.foldl_nil]
    unfold checkTabFold
    have hcl : tabAllContentLoaded navs = some T1 := by
      unfold tabAllContentLoaded
      rw [htop]
      exact hacl
    rw [hcl]
    dsimp only
    have hacc : (if T1 > st.createDate then T1 else st.createDate) = T1 := by
      by_cases hlt : T1 > st.createDate
      · rw [if_pos hlt]
      · rw [if_neg hlt]
        omega
    rw [hacc]
    exact commandSuccessFold_const (some T1) T1 st.commands T1 (le_refl T1) hcmds
  rw [(hiff st)]
  exact ⟨T2, herr, by omega⟩

/-- C7 witness. -/
theorem claim_C7_witness :
    hasRecentErrors
      { createDate := 1,
        navigationsByTabId := [⟨[⟨.goto, 1, [(.AllContentLoaded, 5)], 1⟩]⟩],
        commands := [⟨some 4, none⟩],
        lastErrorTime := some 9 } = true :=
  (claim_C7_responsive
    { createDate := 1,
      navigationsByTabId := [⟨[⟨.goto, 1, [(.AllContentLoaded, 5)], 1⟩]⟩],
      commands := [⟨some 4, none⟩],
      lastErrorTime := some 9 }
    ⟨[⟨.goto, 1, [(.AllContentLoaded, 5)], 1⟩]⟩ ⟨.goto, 1, [(.AllContentLoaded, 5)], 1⟩
    5 9 rfl rfl rfl (by decide) rfl (by decide)
    (by
      intro c hc
      simp at hc
      subst hc
      exact Or.inr (Or.inl ⟨4, rfl, by decide⟩))).1

/-! Claim C6: websocket message replay on listener registration. -/

/-- C6: registering a listener for a resource id synchronously delivers
all previously captured messages for that resource, in capture order, and
a message captured afterwards (resolved to that resource id through its
redirect chain) is delivered to the listener right after the replayed
history. -/
theorem claim_C6_websocket_replay (st : WsState) (resourceId listenerId : Nat)
    (browserRequestId : String) (isFromServer : Bool) (message : String)
    (hfreshLog : ∀ p ∈ st.deliveryLog, p.1 ≠ listenerId)
    (hfreshListener : listenerId ∉ st.websocketListeners resourceId) :
    deliveriesTo (onWebsocketMessages st resourceId listenerId) listenerId =
      st.websocketMessages.filter (fun m => m.resourceId = resourceId) ∧
    (∀ finalRef : ResourceRef,
      (st.browserRequestIdToResources browserRequestId).getLast? = some finalRef →
      finalRef.resourceId = resourceId →
      deliveriesTo
        (captureWebsocketMessage (onWebsocketMessages st resourceId listenerId)
          browserRequestId isFromServer message).1 listenerId =
        st.websocketMessages.filter (fun m => m.resourceId = resourceId) ++
          [{ resourceId := resourceId, messageId := st.websocketMessageIdCounter + 1,
             fromServer := isFromServer, message := message }]) := by
  have hreplay : deliveriesTo (onWebsocketMessages st resourceId listenerId) listenerId =
      st.websocketMessages.filter (fun m => m.resourceId = resourceId) := by
    unfold deliveriesTo onWebsocketMessages
    dsimp only
    rw [List.filter_append]
    have hold : st.deliveryLog.filter (fun p => p.1 = listenerId) = [] := by
      rw [List.filter_eq_nil_iff]
      intro p hp
      simp only [decide_eq_true_eq]
      exact hfreshLog p hp
    rw [hold, List.nil_append, List.filter_map, List.map_map]
    have hp : ((fun p : Nat × WebsocketMessage => decide (p.1 = listenerId)) ∘
        (fun m => (listenerId, m))) = fun _ => true := by
      funext m
      simp
    rw [hp, List.filter_true]
    have hid : ((fun p : Nat × WebsocketMessage => p.2) ∘ (fun m => (listenerId, m))) =
        id := by
      funext m
      rfl
    rw [hid, List.map_id]
  refine ⟨hreplay, ?_⟩
  intro finalRef hlast hres
  unfold captureWebsocketMessage
  have hbr : (onWebsocketMessages st resourceId listenerId).browserRequestIdToResources
      browserRequestId = st.browserRequestIdToResources browserRequestId := rfl
  rw [hbr]
  dsimp only
  rw [hlast]
  dsimp only
  have hcounter : (onWebsocketMessages st resourceId listenerId).websocketMessageIdCounter =
      st.websocketMessageIdCounter := rfl
  rw [hcounter]
  unfold deliveriesTo
  dsimp only
  rw [List.filter_append, List.map_append]
  have hfirst : ((onWebsocketMessages st resourceId listenerId).deliveryLog.filter
      (fun p => p.1 = listenerId)).map (fun p => p.2) =
      st.websocketMessages.filter (fun m => m.resourceId = resourceId) := hreplay
  rw [hfirst]
  congr 1
  have hlisteners : (onWebsocketMessages st resourceId listenerId).websocketListeners
      finalRef.resourceId = st.websocketListeners resourceId ++ [listenerId] := by
    unfold onWebsocketMessages
    dsimp only
    rw [hres, if_pos rfl]
  rw [hlisteners, hres]
  rw [List.map_append, List.filter_append]
  have hnone : ((st.websocketListeners resourceId).map
      (fun l => (l, (⟨resourceId, st.websocketMessageIdCounter + 1,
        isFromServer, message⟩ : WebsocketMessage)))).filter
      (fun p => p.1 = listenerId) = [] := by
    rw [List.filter_eq_nil_iff]
    intro p hp
    rw [List.mem_map] at hp
    obtain ⟨l, hl, rfl⟩ := hp
    simp only [decide_eq_true_eq]
    intro hcontra
    subst hcontra
    exact hfreshListener hl
  rw [hnone, List.nil_append]
  simp

/-- C6 witness. -/
theorem claim_C6_witness :
    deliveriesTo
      (onWebsocketMessages
        { websocketMessages := [⟨2, 1, true, "hello"⟩, ⟨3, 2, false, "skip"⟩, ⟨2, 3, true, "again"⟩],
          websocketListeners := fun _ => [],
          browserRequestIdToResources := fun b => if b = "br" then [⟨2, "u"⟩] else [],
          websocketMessageIdCounter := 3,
          deliveryLog := [] } 2 7) 7 =
      [⟨2, 1, true, "hello"⟩, ⟨2, 3, true, "again"⟩] :=
  (claim_C6_websocket_replay
    { websocketMessages := [⟨2, 1, true, "hello"⟩, ⟨3, 2, false, "skip"⟩, ⟨2, 3, true, "again"⟩],
      websocketListeners := fun _ => [],
      browserRequestIdToResources := fun b => if b = "br" then [⟨2, "u"⟩] else [],
      websocketMessageIdCounter := 3,
      deliveryLog := [] } 2 7 ("br") true ("later")
    (by intro p hp; simp at hp)
    (by simp)).1

/-! Claim C1: pool capacity invariant. -/

theorem poolStep_request (st : PoolState) (rid : Nat) :
    poolStep st (.request rid) =
      if st.activeCount < st.maxConcurrentAgentsCount then
        ({ st with activeCount := st.activeCount + 1 }, [rid])
      else ({ st with queue := st.queue ++ [rid] }, []) := rfl

theorem poolStep_close (st : PoolState) :
    poolStep st .close =
      if st.activeCount = 0 then (st, [])
      else
        match st.queue with
        | [] => ({ st with activeCount := st.activeCount - 1 }, [])
        | next :: rest => ({ st with queue := rest }, [next]) := rfl

theorem poolStep_max (st : PoolState) (e : PoolEvent) :
    (poolStep st e).1.maxConcurrentAgentsCount = st.maxConcurrentAgentsCount := by
  cases e with
  | request rid =>
      rw [poolStep_request]
      by_cases h : st.activeCount < st.maxConcurrentAgentsCount
      · rw [if_pos h]
      · rw [if_neg h]
  | close =>
      rw [poolStep_close]
      by_cases h : st.activeCount = 0
      · rw [if_pos h]
      · rw [if_neg h]
        cases st.queue with
        | nil => rfl
        | cons next rest => rfl

theorem poolStep_active_le (st : PoolState) (e : PoolEvent)
    (h : st.activeCount ≤ st.maxConcurrentAgentsCount) :
    (poolStep st e).1.activeCount ≤ st.maxConcurrentAgentsCount := by
  cases e with
  | request rid =>
      rw [poolStep_request]
      by_cases hlt : st.activeCount < st.maxConcurrentAgentsCount
      · rw [if_pos hlt]
        exact hlt
      · rw [if_neg hlt]
        exact h
  | close =>
      rw [poolStep_close]
      by_cases h0 : st.activeCount = 0
      · rw [if_pos h0]
        exact h
      · rw [if_neg h0]
        cases st.queue with
        | nil => exact Nat.le_trans (Nat.sub_le _ _) h
        | cons next rest => exact h

theorem poolTrace_active_le (k : Nat) (events : List PoolEvent) :
    ∀ (st : PoolState), st.maxConcurrentAgentsCount = k → st.activeCount ≤ k →
      ∀ s ∈ poolTrace st events, s.activeCount ≤ k := by
  induction events with
  | nil =>
      intro st hmax hle s hs
      simp [poolTrace] at hs
      subst hs
      exact hle
  | cons e rest ih =>
      intro st hmax hle s hs
      simp only [poolTrace, List.mem_cons] at hs
      rcases hs with rfl | hs
      · exact hle
      · refine ih (poolStep st e).1 ?_ ?_ s hs
        · rw [poolStep_max, hmax]
        · have := poolStep_active_le st e (by omega)
          omega

theorem poolRun_fill (rids : List Nat) :
    ∀ (st : PoolState), st.activeCount + rids.length ≤ st.maxConcurrentAgentsCount →
      poolRun st (rids.map PoolEvent.request) =
        ({ st with activeCount := st.activeCount + rids.length },
         rids.map (fun r => [r])) := by
  induction rids with
  | nil => intro st _; rfl
  | cons r rest ih =>
      intro st hcap
      simp only [List.length_cons] at hcap
      have hlt : st.activeCount < st.maxConcurrentAgentsCount := by omega
      have hstep : poolStep st (PoolEvent.request r) =
          ({ st with activeCount := st.activeCount + 1 }, [r]) := by
        rw [poolStep_request, if_pos hlt]
      rw [List.map_cons, poolRun, hstep]
      have hrec := ih { st with activeCount := st.activeCount + 1 }
        (by show st.activeCount + 1 + rest.length ≤ st.maxConcurrentAgentsCount; omega)
      rw [hrec]
      have harith : st.activeCount + 1 + rest.length = st.activeCount + (rest.length + 1) := by
        omega
      simp only [List.length_cons, List.map_cons, harith]

/-- C1: from an empty pool of capacity `k`, every state along any event
sequence keeps at most `k` sessions open; `k` concurrent requests fill the
pool, admitting each; a further request at capacity does not fail — it is
queued with no admission — and a queued request is admitted only when a
session closes (a close admits exactly the queue's head, and another
request admits only itself). -/
theorem claim_C1_pool_capacity (k : Nat) (events : List PoolEvent)
    (rids : List Nat) (rid : Nat) (st : PoolState)
    (hlen : rids.length = k) :
    (∀ s ∈ poolTrace (poolInit k) events, s.activeCount ≤ k) ∧
    (poolRun (poolInit k) (rids.map PoolEvent.request) =
      ({ poolInit k with activeCount := k }, rids.map (fun r => [r]))) ∧
    (st.activeCount = st.maxConcurrentAgentsCount →
      poolStep st (.request rid) = ({ st with queue := st.queue ++ [rid] }, [])) ∧
    (∀ rid', rid ∈ st.queue → rid' ≠ rid → rid ∉ (poolStep st (.request rid')).2) ∧
    (∀ rest, st.queue = rid :: rest → st.activeCount ≠ 0 →
      poolStep st .close = ({ st with queue := rest }, [rid])) := by
  refine ⟨?_, ?_, ?_, ?_, ?_⟩
  · exact poolTrace_active_le k events (poolInit k) rfl (Nat.zero_le k)
  · have hfill := poolRun_fill rids (poolInit k) (by simp [poolInit, hlen])
    rw [hfill]
    simp [poolInit, hlen]
  · intro hfull
    have hnlt : ¬ st.activeCount < st.maxConcurrentAgentsCount := by omega
    rw [poolStep_request, if_neg hnlt]
  · intro rid' hqueue hne
    rw [poolStep_request]
    by_cases hlt : st.activeCount < st.maxConcurrentAgentsCount
    · rw [if_pos hlt]
      simp only [List.mem_singleton]
      intro hcontra
      exact hne (hcontra ▸ rfl)
    · rw [if_neg hlt]
      simp
  · intro rest hq h0
    rw [poolStep_close, if_neg h0, hq]

/-- C1 witness. -/
theorem claim_C1_witness :
    (∀ s ∈ poolTrace (poolInit 2) [.request 10, .request 11, .request 12, .close],
      s.activeCount ≤ 2) ∧
    poolStep ⟨2, 2, []⟩ (.request 12) = (⟨2, 2, [12]⟩, []) ∧
    poolStep ⟨2, 2, [12]⟩ .close = (⟨2, 2, []⟩, [12]) := by
  have h := claim_C1_pool_capacity 2 [.request 10, .request 11, .request 12, .close]
    [10, 11] 12 ⟨2, 2, [12]⟩ rfl
  refine ⟨h.1, ?_, ?_⟩
  · exact (claim_C1_pool_capacity 2 [] [10, 11] 12 ⟨2, 2, []⟩ rfl).2.2.1 rfl
  · exact h.2.2.2.2 [] rfl (by decide)

/-! Claim C2: redirect coalescing in one status-change batch. -/

/-- C2: a batch advancing the current navigation from step `s` to step `n`
in one status-change event wakes, exactly once each, the waiters of every
status at a step in `(s, n]` except an `HttpRedirected` that is not the
final step `n`; waiters for the final status are woken exactly once, with
their full FIFO list, and every status of the batch (the skipped
`HttpRedirected` steps included) is recorded in the top entry's
`stateChanges`. -/
theorem claim_C2_redirect_coalescing (navs : NavState) (t : LocationTracker)
    (batch : List (PipelineStatus × Nat)) (nav : Navigation)
    (htop : navs.top = some nav) (newStatus : PipelineStatus) (tN : Nat)
    (hlastB : batch.getLast? = some (newStatus, tN))
    (hforward : getPipelineStatus nav < stepOf newStatus) :
    (∀ st : PipelineStatus,
      (((recordLifecycleBatch navs t batch).2.2).map Prod.fst).count st =
        if getPipelineStatus nav < stepOf st ∧ stepOf st ≤ stepOf newStatus ∧
            (st ≠ .HttpRedirected ∨ stepOf st = stepOf newStatus) then 1 else 0) ∧
    ((newStatus, t.waitForCbs (.pipeline newStatus)) ∈
      (recordLifecycleBatch navs t batch).2.2) ∧
    ((recordLifecycleBatch navs t batch).1.top =
      some { nav with stateChanges := nav.stateChanges ++ batch }) := by
  have hhist : navs.history.getLast? = some nav := htop
  have hcur : currentStep navs = getPipelineStatus nav := by
    unfold currentStep
    rw [htop]
  have heq : recordLifecycleBatch navs t batch =
      (⟨navs.history.dropLast ++ [{ nav with stateChanges := nav.stateChanges ++ batch }]⟩,
       (onPipelineStatusChange t (getPipelineStatus nav) newStatus).1,
       (onPipelineStatusChange t (getPipelineStatus nav) newStatus).2) := by
    unfold recordLifecycleBatch
    rw [hhist]
    dsimp only
    rw [hlastB]
    dsimp only
    rw [hcur, if_pos hforward]
  rw [heq]
  refine ⟨?_, ?_, ?_⟩
  · intro st
    exact onPipelineStatusChange_count t (getPipelineStatus nav) newStatus st
  · exact onPipelineStatusChange_mem_of t (getPipelineStatus nav) newStatus
      ⟨hforward, le_refl _, Or.inr rfl⟩
  · unfold NavState.top
    exact List.getLast?_concat _

/-- C2 witness: a batch `HttpRedirected, HttpRedirected, HttpResponded`
on a navigation at step 1 wakes no `HttpRedirected` waiter and wakes the
`HttpResponded` waiters exactly once. -/
theorem claim_C2_witness :
    ((((recordLifecycleBatch ⟨[⟨.goto, 1, [(.HttpRequested, 1)], 0⟩]⟩ ⟨0, fun _ => [5]⟩
        [(.HttpRedirected, 2), (.HttpRedirected, 3), (.HttpResponded, 4)]).2.2).map
          Prod.fst).count .HttpRedirected = 0) ∧
    ((((recordLifecycleBatch ⟨[⟨.goto, 1, [(.HttpRequested, 1)], 0⟩]⟩ ⟨0, fun _ => [5]⟩
        [(.HttpRedirected, 2), (.HttpRedirected, 3), (.HttpResponded, 4)]).2.2).map
          Prod.fst).count .HttpResponded = 1) := by
  have h := (claim_C2_redirect_coalescing
    ⟨[⟨.goto, 1, [(.HttpRequested, 1)], 0⟩]⟩ ⟨0, fun _ => [5]⟩
    [(.HttpRedirected, 2), (.HttpRedirected, 3), (.HttpResponded, 4)]
    ⟨.goto, 1, [(.HttpRequested, 1)], 0⟩ rfl .HttpResponded 4 rfl (by decide)).1
  constructor
  · rw [h .HttpRedirected]
    decide
  · rw [h .HttpResponded]
    decide

/-! Claim C3: tracker wait contract. -/

theorem maxStepFold_ge (l : List (PipelineStatus × Nat)) :
    ∀ a : Nat,
      a ≤ l.foldl
        (fun maxStep change =>
          if stepOf change.1 > maxStep then stepOf change.1 else maxStep) a := by
  induction l with
  | nil => intro a; exact le_refl a
  | cons c rest ih =>
      intro a
      rw [List.foldl_cons]
      refine le_trans ?_ (ih _)
      by_cases h : stepOf c.1 > a
      · rw [if_pos h]
        omega
      · rw [if_neg h]

theorem getPipelineStatus_append (nav : Navigation) (batch : List (PipelineStatus × Nat)) :
    getPipelineStatus nav ≤
      getPipelineStatus { nav with stateChanges := nav.stateChanges ++ batch } := by
  unfold getPipelineStatus
  dsimp only
  rw [List.foldl_append]
  exact maxStepFold_ge batch _

/-- C3 counterexample: the claim's step-satisfaction rule fails for
`NavigationRequested` — its step 0 is at or below the current navigation's
highest recorded step, yet `waitFor` registers a waiter instead of
resolving immediately — and an `HttpRedirected` waiter is not resolved by
the batch that records `HttpRedirected` (it is skipped and left queued),
although the status is reached and recorded. -/
theorem claim_C3_counterexample :
    (stepOf .NavigationRequested ≤ currentStep ⟨[⟨.goto, 1, [(.HttpRequested, 5)], 0⟩]⟩ ∧
      (waitForStatus ⟨[⟨.goto, 1, [(.HttpRequested, 5)], 0⟩]⟩ ⟨0, fun _ => []⟩
        (.pipeline .NavigationRequested) none true 7).1 = .registered) ∧
    (PipelineStatus.HttpRedirected ∉
        (((recordLifecycleBatch ⟨[⟨.goto, 1, [], 0⟩]⟩
          ⟨0, fun s => if s = .pipeline .HttpRedirected then [9] else []⟩
          [(.HttpRequested, 1), (.HttpRedirected, 2), (.HttpResponded, 3)]).2.2).map
            Prod.fst) ∧
      (recordLifecycleBatch ⟨[⟨.goto, 1, [], 0⟩]⟩
          ⟨0, fun s => if s = .pipeline .HttpRedirected then [9] else []⟩
          [(.HttpRequested, 1), (.HttpRedirected, 2), (.HttpResponded, 3)]).2.1.waitForCbs
        (.pipeline .HttpRedirected) = [9] ∧
      (recordLifecycleBatch ⟨[⟨.goto, 1, [], 0⟩]⟩
          ⟨0, fun s => if s = .pipeline .HttpRedirected then [9] else []⟩
          [(.HttpRequested, 1), (.HttpRedirected, 2), (.HttpResponded, 3)]).1.top =
        some ⟨.goto, 1, [(.HttpRequested, 1), (.HttpRedirected, 2), (.HttpResponded, 3)], 0⟩) := by
  decide

/-- C3 (amended): under lifecycle batches the current navigation's
recorded step never decreases; `waitFor` for a pipeline status with step
at least 1 resolves immediately when that step is at or below the current
step, while a `waitFor` for `NavigationRequested` (step 0, falsy) or for a
not-yet-reached status appends a waiter to that status's FIFO list; a
status-change event hands each woken status its full waiter list in FIFO
registration order and clears it (so a waiter resolves at most once), only
wakes statuses whose step the event's pipeline position has reached, and
wakes every such status — `HttpRedirected` only as the final step. -/
theorem claim_C3_tracker_contract :
    (∀ (navs : NavState) (t : LocationTracker) (batch : List (PipelineStatus × Nat))
        (nav : Navigation), navs.top = some nav →
      ∃ nav', (recordLifecycleBatch navs t batch).1.top = some nav' ∧
        getPipelineStatus nav ≤ getPipelineStatus nav') ∧
    (∀ (navs : NavState) (t : LocationTracker) (p : PipelineStatus)
        (sinceCommandId : Option Nat) (inclusive : Bool) (waiterId : Nat),
      1 ≤ stepOf p → stepOf p ≤ currentStep navs →
      waitForStatus navs t (.pipeline p) sinceCommandId inclusive waiterId =
        (.resolved, t)) ∧
    (∀ (navs : NavState) (t : LocationTracker) (p : PipelineStatus)
        (sinceCommandId : Option Nat) (inclusive : Bool) (waiterId : Nat),
      stepOf p = 0 ∨ currentStep navs < stepOf p →
      waitForStatus navs t (.pipeline p) sinceCommandId inclusive waiterId =
        (.registered,
         ⟨t.defaultWaitForLocationCommandId,
          fun s => if s = .pipeline p then t.waitForCbs s ++ [waiterId]
                   else t.waitForCbs s⟩)) ∧
    (∀ (t : LocationTracker) (lastStep : Nat) (newStatus st : PipelineStatus)
        (l : List Nat),
      ((st, l) ∈ (onPipelineStatusChange t lastStep newStatus).2 →
        l = t.waitForCbs (.pipeline st) ∧
        (onPipelineStatusChange t lastStep newStatus).1.waitForCbs (.pipeline st) = [] ∧
        lastStep < stepOf st ∧ stepOf st ≤ stepOf newStatus) ∧
      ((onPipelineStatusChange t lastStep newStatus).2.map Prod.fst).count st ≤ 1 ∧
      (lastStep < stepOf st → stepOf st ≤ stepOf newStatus →
        (st ≠ .HttpRedirected ∨ stepOf st = stepOf newStatus) →
        (st, t.waitForCbs (.pipeline st)) ∈ (onPipelineStatusChange t lastStep newStatus).2)) := by
  refine ⟨?_, ?_, ?_, ?_⟩
  · intro navs t batch nav htop
    have hhist : navs.history.getLast? = some nav := htop
    refine ⟨{ nav with stateChanges := nav.stateChanges ++ batch }, ?_, ?_⟩
    · unfold recordLifecycleBatch
      rw [hhist]
      dsimp only
      unfold NavState.top
      exact List.getLast?_concat _
    · exact getPipelineStatus_append nav batch
  · intro navs t p sinceCommandId inclusive waiterId h1 h2
    unfold waitForStatus
    dsimp only
    have hfalse : ¬ (false = true) := by simp
    have hstep : (decide (stepOf p ≠ 0) && decide (stepOf p ≤ currentStep navs)) = true := by
      simp only [Bool.and_eq_true, decide_eq_true_eq]
      exact ⟨by omega, h2⟩
    rw [if_neg hfalse, if_pos hstep]
  · intro navs t p sinceCommandId inclusive waiterId h
    unfold waitForStatus
    dsimp only
    have hfalse : ¬ (false = true) := by simp
    have hstep : (decide (stepOf p ≠ 0) && decide (stepOf p ≤ currentStep navs)) = false := by
      rcases h with h0 | hgt
      · simp [h0]
      · simp only [Bool.and_eq_false_iff]
        right
        simp only [decide_eq_false_iff_not]
        omega
    have hstepn : ¬ ((decide (stepOf p ≠ 0) && decide (stepOf p ≤ currentStep navs)) = true) := by
      rw [hstep]
      simp
    rw [if_neg hfalse, if_neg hstepn]
  · intro t lastStep newStatus st l
    refine ⟨?_, ?_, ?_⟩
    · intro hmem
      have hfst : st ∈ ((onPipelineStatusChange t lastStep newStatus).2.map Prod.fst) :=
        List.mem_map_of_mem Prod.fst hmem
      have hcond := (onPipelineStatusChange_fst_mem t lastStep newStatus st).mp hfst
      refine ⟨onPipelineStatusChange_entry t lastStep newStatus hmem, ?_, hcond.1, hcond.2.1⟩
      rw [onPipelineStatusChange_cbs, if_pos hcond]
    · rw [onPipelineStatusChange_count]
      split
      · exact le_refl 1
      · exact Nat.zero_le 1
    · intro h1 h2 h3
      exact onPipelineStatusChange_mem_of t lastStep newStatus ⟨h1, h2, h3⟩

/-- C3 witness. -/
theorem claim_C3_witness :
    waitForStatus ⟨[⟨.goto, 1, [(.HttpRequested, 5)], 0⟩]⟩ ⟨0, fun _ => []⟩
        (.pipeline .HttpRequested) none true 7 =
      (.resolved, (⟨0, fun _ => []⟩ : LocationTracker)) :=
  claim_C3_tracker_contract.2.1 ⟨[⟨.goto, 1, [(.HttpRequested, 5)], 0⟩]⟩ ⟨0, fun _ => []⟩
    .HttpRequested none true 7 (by decide) (by decide)

end SecretAgent
